import Mathlib

/-!
Shallow embedding of the water-management repository's ingestion, parsing and
alerting logic, together with theorems settling the frozen claims.

Modelling conventions used throughout:
* Raw CSV cells are `Option String`; `none` models a pandas `NaN` cell
  (a missing value).  `str(cell)` on a `NaN` produces the string `nan`.
* Python floats are modelled by `ℚ`; all values appearing in the files and
  configuration are decimal literals that `ℚ` represents exactly, and the
  claims under study depend only on comparisons and on arithmetic whose
  rational result is what the spec describes.
* `int(n * 0.8)` on a list length `n` is modelled by `(4 * n) / 5` in `ℕ`:
  for every `n < 2 ^ 52` the double product `n * 0.8` rounds to a value with
  the same floor, so the two agree on any list length that can occur.
* `pd.to_datetime` is modelled for the timestamp shapes occurring in the
  repository's data files (`DD-MM-YYYY HH:MM:SS` with `dayfirst=True`,
  month-first for ambiguous dates otherwise); other inputs are treated as
  parse failures.  No settled claim depends on exotic timestamp formats.
* `random.random()` is modelled by an explicit stream `r : ℕ → ℚ` of draws,
  consumed left to right exactly as the Python code calls the generator.
-/

/-! ## Python-style string primitives (over `List Char`) -/

/-- Model of Python `str.strip()` on the left: drop leading whitespace. -/
def lstripWS (s : List Char) : List Char := s.dropWhile Char.isWhitespace

/-- Model of Python `str.strip()` : drop surrounding whitespace. -/
def pyStrip (s : String) : String :=
  ⟨(lstripWS s.toList).reverse.dropWhile Char.isWhitespace |>.reverse⟩

/-- Model of Python `str.strip(chars)` : drop the given characters from both ends. -/
def pyStripSet (cs : List Char) (s : String) : String :=
  ⟨((s.toList.dropWhile (· ∈ cs)).reverse.dropWhile (· ∈ cs)).reverse⟩

/-- Model of Python `str.rstrip(chars)` : drop the given characters from the right end. -/
def pyRstripSet (cs : List Char) (s : String) : String :=
  ⟨(s.toList.reverse.dropWhile (· ∈ cs)).reverse⟩

/-- Fuel-driven splitter: Python `str.split(sep)` for a non-empty separator,
scanning left to right and cutting at each non-overlapping occurrence.
The fuel only needs to dominate the number of characters consumed. -/
def splitOnFuel (sep : List Char) : ℕ → List Char → List Char → List (List Char)
  | 0, s, acc => [acc.reverse ++ s]
  | _ + 1, [], acc => [acc.reverse]
  | f + 1, c :: rest, acc =>
    if sep.isPrefixOf (c :: rest) then
      acc.reverse :: splitOnFuel sep f ((c :: rest).drop sep.length) []
    else
      splitOnFuel sep f rest (c :: acc)

/-- Model of Python `s.split(sep)` for a non-empty separator. -/
def pySplit (sep : String) (s : String) : List String :=
  (splitOnFuel sep.toList (s.toList.length + 1) s.toList []).map List.asString

/-- Model of the Python substring test `sep in s` (non-empty `sep`). -/
def containsSub (s sub : String) : Prop := 2 ≤ (pySplit sub s).length

instance (s sub : String) : Decidable (containsSub s sub) := by
  unfold containsSub; infer_instance

/-- Fuel-driven replacement: Python `str.replace(pat, rep)`, replacing every
non-overlapping occurrence left to right. -/
def replaceFuel (pat rep : List Char) : ℕ → List Char → List Char
  | 0, s => s
  | _ + 1, [] => []
  | f + 1, c :: rest =>
    if pat ≠ [] ∧ pat.isPrefixOf (c :: rest) then
      rep ++ replaceFuel pat rep f ((c :: rest).drop pat.length)
    else
      c :: replaceFuel pat rep f rest

/-- Model of Python `s.replace(pat, rep)`. -/
def pyReplace (s pat rep : String) : String :=
  ⟨replaceFuel pat.toList rep.toList (s.toList.length + 1) s.toList⟩

/-- Model of Python `s.startswith(pre)`. -/
def pyStartsWith (s pre : String) : Prop := pre.toList.isPrefixOf s.toList

instance (s pre : String) : Decidable (pyStartsWith s pre) := by
  unfold pyStartsWith; infer_instance

/-- Model of Python `s.lower()` (ASCII inputs only, as in the data files). -/
def pyLower (s : String) : String := ⟨s.toList.map Char.toLower⟩

/-- Model of `re.sub(r'^\d+\.\s*', '', s)` : remove a leading run of digits
followed by a literal dot and any following whitespace; otherwise unchanged. -/
def stripLeadingNumber (s : String) : String :=
  match s.toList.takeWhile Char.isDigit, s.toList.dropWhile Char.isDigit with
  | _ :: _, '.' :: tail => ⟨tail.dropWhile Char.isWhitespace⟩
  | _, _ => s

/-- Model of `re.sub(r'[^\w\s()]', '', s)` : keep word characters (ASCII
alphanumerics and underscore), whitespace and parentheses, drop the rest. -/
def keepWordChars (s : String) : String :=
  ⟨s.toList.filter (fun c =>
    c.isAlphanum || c = '_' || c.isWhitespace || c = '(' || c = ')')⟩

/-! ## Numeric parsing -/

/-- Digit run to a natural number. -/
def digitsToNat (ds : List Char) : ℕ :=
  ds.foldl (fun n c => 10 * n + (c.toNat - '0'.toNat)) 0

/-- Model of Python `float(s)` restricted to finite decimal literals:
optional sign, decimal digits with an optional fractional part and an
optional exponent.  Non-finite literals (`nan`, `inf`) are treated as
failures; at every call site of the repository a non-finite value is
either rejected right after parsing (`np.isfinite`) or never occurs. -/
def parseFloat (s : String) : Option ℚ := Id.run do
  let cs := (lstripWS s.toList).reverse.dropWhile Char.isWhitespace |>.reverse
  let (sign, cs) :=
    match cs with
    | '+' :: rest => ((1 : ℚ), rest)
    | '-' :: rest => ((-1 : ℚ), rest)
    | _ => ((1 : ℚ), cs)
  let intPart := cs.takeWhile Char.isDigit
  let cs := cs.dropWhile Char.isDigit
  let (fracPart, cs) :=
    match cs with
    | '.' :: rest => (rest.takeWhile Char.isDigit, rest.dropWhile Char.isDigit)
    | _ => ([], cs)
  if intPart = [] ∧ fracPart = [] then
    return none
  let mantissa : ℚ :=
    (digitsToNat intPart : ℚ) + (digitsToNat fracPart : ℚ) / ((10 : ℚ) ^ fracPart.length)
  match cs with
  | [] => return some (sign * mantissa)
  | e :: rest =>
    if e = 'e' ∨ e = 'E' then
      let (esign, rest) :=
        match rest with
        | '+' :: r => ((1 : ℤ), r)
        | '-' :: r => ((-1 : ℤ), r)
        | _ => ((1 : ℤ), rest)
      let eds := rest.takeWhile Char.isDigit
      let rest := rest.dropWhile Char.isDigit
      if eds = [] ∨ rest ≠ [] then return none
      return some (sign * mantissa * (10 : ℚ) ^ (esign * (digitsToNat eds : ℤ)))
    else
      return none

/-! ## Timestamp parsing (model of `pd.to_datetime` on the file formats) -/

/-- Two-digit zero-padded decimal rendering. -/
def pad2 (n : ℕ) : String := if n < 10 then "0" ++ toString n else toString n

/-- Four-digit zero-padded decimal rendering. -/
def pad4 (n : ℕ) : String :=
  if n < 10 then "000" ++ toString n
  else if n < 100 then "00" ++ toString n
  else if n < 1000 then "0" ++ toString n
  else toString n

/-- ISO 8601 rendering `YYYY-MM-DDTHH:MM:SS`, the shape of
`pandas.Timestamp.isoformat()` for whole-second timestamps. -/
def isoOf (y mo d h mi s : ℕ) : String :=
  pad4 y ++ "-" ++ pad2 mo ++ "-" ++ pad2 d ++ "T" ++
    pad2 h ++ ":" ++ pad2 mi ++ ":" ++ pad2 s

/-- Split a `List Char` at a separator character (single pass). -/
def splitChar (c : Char) (s : List Char) : List (List Char) :=
  s.foldr (fun ch acc =>
    match acc with
    | [] => if ch = c then [[], []] else [[ch]]
    | cur :: rest => if ch = c then [] :: cur :: rest else (ch :: cur) :: rest) []

/-- All characters are digits and the count is within the given bounds. -/
def digitRun (lo hi : ℕ) (cs : List Char) : Bool :=
  cs.all Char.isDigit && decide (lo ≤ cs.length) && decide (cs.length ≤ hi)

/-- Parse `HH:MM:SS` (one or two digits per field) with range checks. -/
def parseTimeHMS (t : String) : Option (ℕ × ℕ × ℕ) :=
  match splitChar ':' t.toList with
  | [hs, ms, ss] =>
    if digitRun 1 2 hs ∧ digitRun 1 2 ms ∧ digitRun 1 2 ss then
      let h := digitsToNat hs; let mi := digitsToNat ms; let s := digitsToNat ss
      if h < 24 ∧ mi < 60 ∧ s < 60 then some (h, mi, s) else none
    else none
  | _ => none

/-- Parse a strict day-first date `DD-MM-YYYY` (exactly 2-2-4 digits), the
shape accepted by format `%d-%m-%Y` and preferred under `dayfirst=True`. -/
def parseDateDMY (d : String) : Option (ℕ × ℕ × ℕ) :=
  match splitChar '-' d.toList with
  | [ds, ms, ys] =>
    if digitRun 2 2 ds ∧ digitRun 2 2 ms ∧ digitRun 4 4 ys then
      let dd := digitsToNat ds; let mm := digitsToNat ms; let yy := digitsToNat ys
      if 1 ≤ dd ∧ dd ≤ 31 ∧ 1 ≤ mm ∧ mm ≤ 12 then some (dd, mm, yy) else none
    else none
  | _ => none

/-- Model of `pd.to_datetime(f"{d} {t}", dayfirst=True)` on the quality-file
format: strict day-first date plus `HH:MM:SS` time, rendered in ISO form. -/
def tsDayFirst (d t : String) : Option String := do
  let (dd, mm, yy) ← parseDateDMY d
  let (h, mi, s) ← parseTimeHMS t
  pure (isoOf yy mm dd h mi s)

/-- Model of the default (no `dayfirst`) `pd.to_datetime(f"{d} {t}")` on
`A-B-YYYY HH:MM:SS` dates: the first field is the month when it can be
(`A ≤ 12`), otherwise the parse falls back to day-first, as dateutil does. -/
def tsDefault (d t : String) : Option String :=
  match splitChar '-' d.toList with
  | [as, bs, ys] =>
    if digitRun 1 2 as ∧ digitRun 1 2 bs ∧ digitRun 4 4 ys then
      let a := digitsToNat as; let b := digitsToNat bs; let yy := digitsToNat ys
      let (dd, mm) := if a ≤ 12 then (b, a) else (a, b)
      if 1 ≤ dd ∧ dd ≤ 31 ∧ 1 ≤ mm ∧ mm ≤ 12 then
        match parseTimeHMS t with
        | some (h, mi, s) => some (isoOf yy mm dd h mi s)
        | none => none
      else none
    else none
  | _ => none

/-! ## Parameter and location registry (src/ingestion configuration) -/

/-- The eight parameter names allowed by the database schema
(`SupabaseRestIngestion.ALLOWED_PARAMETERS`). -/
def ALLOWED_PARAMETERS : List String :=
  ["HUMIDITY", "ETP (TDS)", "ETP (pH)", "STP (TDS)",
   "STP (TSS)", "STP (BOD)", "STP (pH)", "STP (COD)"]

/-- The alias table used by both normalization routines (`name_mapping`). -/
def name_mapping : List (String × String) :=
  [("ETP TDS", "ETP (TDS)"), ("ETP pH", "ETP (pH)"),
   ("STP TDS", "STP (TDS)"), ("STP TSS", "STP (TSS)"),
   ("STP BOD", "STP (BOD)"), ("STP pH", "STP (pH)"),
   ("STP COD", "STP (COD)"), ("HUMIDITY", "HUMIDITY"),
   ("ETP(TDS)", "ETP (TDS)"), ("ETP(pH)", "ETP (pH)"),
   ("STP(TDS)", "STP (TDS)"), ("STP(TSS)", "STP (TSS)"),
   ("STP(BOD)", "STP (BOD)"), ("STP(pH)", "STP (pH)"),
   ("STP(COD)", "STP (COD)")]

/-- The five known facility locations (`expected_locations` in
`preload_historical.py`, `self.locations` in `scheduler.py` and
`simulate_realtime.py`). -/
def locations : List String :=
  ["Corporation Water", "Ground Water Source 1", "Ground Water Source 2",
   "Industrial Process", "Tanker Water Supply"]

/-- The eight sensor parameters (`self.parameters` in `scheduler.py` and
`simulate_realtime.py`). -/
def parameters : List String :=
  ["HUMIDITY", "ETP (TDS)", "ETP (pH)", "STP (TDS)",
   "STP (TSS)", "STP (BOD)", "STP (pH)", "STP (COD)"]

/-- Safe ranges as configured in `scheduler.py` (`self.safe_ranges`). -/
def sched_safe_ranges : List (String × ℚ × ℚ) :=
  [("HUMIDITY", 30, 70), ("ETP (TDS)", 100, 1000), ("ETP (pH)", 13/2, 9),
   ("STP (TDS)", 100, 1000), ("STP (TSS)", 1000, 3000), ("STP (BOD)", 0, 5),
   ("STP (pH)", 13/2, 9), ("STP (COD)", 1000, 3000)]

/-- Safe ranges as configured in `simulate_realtime.py` (`self.safe_ranges`,
textually identical to the scheduler's copy). -/
def sim_safe_ranges : List (String × ℚ × ℚ) :=
  [("HUMIDITY", 30, 70), ("ETP (TDS)", 100, 1000), ("ETP (pH)", 13/2, 9),
   ("STP (TDS)", 100, 1000), ("STP (TSS)", 1000, 3000), ("STP (BOD)", 0, 5),
   ("STP (pH)", 13/2, 9), ("STP (COD)", 1000, 3000)]

/-- Safe ranges in the application configuration (`CONFIG["SAFE_RANGES"]`
in `src/app/main.py` and `src/dashwork/dash.py`, identical copies). -/
def CONFIG_SAFE_RANGES : List (String × ℚ × ℚ) :=
  [("HUMIDITY", 30, 70), ("ETP (TDS)", 100, 1000), ("ETP (pH)", 13/2, 9),
   ("STP (TDS)", 100, 1000), ("STP (TSS)", 1000, 3000), ("STP (BOD)", 0, 5),
   ("STP (pH)", 13/2, 9), ("STP (COD)", 1000, 3000)]

/-! ## Parameter-name normalization -/

/-- The cleaning pipeline of
`SupabaseRestIngestion.normalize_parameter_name`
(src/ingestion/preload_historical.py, lines 47-87): strip, remove a
leading numbering, drop trailing commas, cut at `Safe Range:`, drop
non-word characters, map through the alias table, and fix parenthesis
spacing. -/
def preloadCleanedLabel (raw_name : String) : String :=
  let cleaned := pyStrip raw_name
  let cleaned := stripLeadingNumber cleaned
  let cleaned := pyRstripSet [','] cleaned
  let cleaned :=
    if containsSub cleaned "Safe Range:" then
      pyStrip ((pySplit "Safe Range:" cleaned).headD "")
    else cleaned
  let cleaned := pyStrip (keepWordChars cleaned)
  let normalized := ((name_mapping.lookup cleaned).getD cleaned)
  let normalized := pyStrip (pyReplace (pyReplace normalized "(" " (") ")" ") ")
  pyReplace normalized "  " " "

/-- `SupabaseRestIngestion.normalize_parameter_name`
(src/ingestion/preload_historical.py, lines 45-94): clean the raw label
and accept it only when the result is in `ALLOWED_PARAMETERS` (otherwise
`None`, lines 89-94). -/
def normalize_parameter_name (raw_name : String) : Option String :=
  if preloadCleanedLabel raw_name ∈ ALLOWED_PARAMETERS then
    some (preloadCleanedLabel raw_name)
  else none

/-- `RemainingDataIngestor.normalize_parameter_name`
(src/ingestion/scheduler.py, lines 43-60): the same cleaning steps, but the
result of the alias lookup is returned unchanged — there is no parenthesis
respacing and no final validation against the allowed parameter set. -/
def sched_normalize_parameter_name (raw_name : String) : String :=
  let cleaned := stripLeadingNumber (pyRstripSet [','] (pyStrip raw_name))
  let cleaned :=
    if containsSub cleaned "Safe Range:" then
      pyStrip ((pySplit "Safe Range:" cleaned).headD "")
    else cleaned
  let cleaned := pyStrip (keepWordChars cleaned)
  (name_mapping.lookup cleaned).getD cleaned

/-! ## Rows, records and per-key groups -/

/-- One raw CSV row; only the first three columns are ever read by the
parsing code.  A `none` cell models a pandas `NaN` (missing) cell. -/
structure Row where
  c0 : Option String
  c1 : Option String
  c2 : Option String
deriving DecidableEq

/-- Model of Python `str(cell)` : a `NaN` cell prints as `nan`. -/
def cellStr (c : Option String) : String := c.getD "nan"

/-- A field value inside an emitted record (Python dict values). -/
inductive Value where
  | str : String → Value
  | num : ℚ → Value
  | null : Value
deriving DecidableEq

/-- A record is a Python dict, modelled as its key/value pairs in literal
order. -/
abbrev Record := List (String × Value)

/-- The field names of a record, in order. -/
def keysOf (r : Record) : List String := r.map Prod.fst

/-- Optional float to field value (`None` becomes JSON null). -/
def optNum : Option ℚ → Value
  | none => Value.null
  | some q => Value.num q

/-- The string stored under a field, defaulting to the empty string. -/
def strField (r : Record) (k : String) : String :=
  match r.lookup k with
  | some (Value.str s) => s
  | _ => ""

/-- The number stored under a field, defaulting to zero. -/
def numField (r : Record) (k : String) : ℚ :=
  match r.lookup k with
  | some (Value.num q) => q
  | _ => 0

/-- Per-key record groups, modelling a `defaultdict(list)` : insertion
order of keys is preserved and new records are appended at the end of
their key's list. -/
abbrev Groups (κ : Type) := List (κ × List Record)

/-- Append a record to its key's group (`rows_by_x[key].append(rec)`). -/
def addRecord [DecidableEq κ] (g : Groups κ) (k : κ) (r : Record) : Groups κ :=
  match g with
  | [] => [(k, [r])]
  | (k', rs) :: tl =>
    if k' = k then (k', rs ++ [r]) :: tl else (k', rs) :: addRecord tl k r

/-- Total number of records held in a group map. -/
def sumLens (g : Groups κ) : ℕ := (g.map (fun kv => kv.2.length)).sum

/-! ## Historical-load water quality parsing
(src/ingestion/preload_historical.py, `process_water_quality_data`) -/

/-- The record literal appended for a parsed quality reading (lines
207-213): five fields, no location. -/
def mkQualityRec (ts p : String) (v : ℚ) (mn mx : Option ℚ) : Record :=
  [("timestamp", Value.str ts), ("parameter_name", Value.str p),
   ("value", Value.num v), ("safe_min", optNum mn), ("safe_max", optNum mx)]

/-- Parser state of the quality line scanner. -/
structure QState where
  groups : Groups String
  currentParam : Option String
  safeMin : Option ℚ
  safeMax : Option ℚ
  skippedInvalidParams : ℕ
  skippedNullValues : ℕ
deriving DecidableEq

/-- Initial quality-parser state. -/
def qualInit : QState := ⟨[], none, none, none, 0, 0⟩

/-- The column-title test `any(x in line.lower() for x in ["date", "time",
"parameter"])`. -/
def isHeaderLine (line : String) : Prop :=
  containsSub (pyLower line) "date" ∨ containsSub (pyLower line) "time" ∨
    containsSub (pyLower line) "parameter"

instance (line : String) : Decidable (isHeaderLine line) := by
  unfold isHeaderLine; infer_instance

/-- Safe-range extraction in the historical parser:
`line.split("Safe Range:")[1].strip()` then `.strip(" ()")`, then
`map(float, s.split("to"))` unpacked into exactly two floats.  Any
failure raises and is caught by the enclosing handler. -/
def parseSafeRange (line : String) : Option (ℚ × ℚ) :=
  let s := pyStripSet [' ', '(', ')'] (pyStrip (((pySplit "Safe Range:" line).drop 1).headD ""))
  match pySplit "to" s with
  | [a, b] =>
    match parseFloat a, parseFloat b with
    | some mn, some mx => some (mn, mx)
    | _, _ => none
  | _ => none

/-- One step of the historical quality line scanner (the body of the row
loop, lines 147-216).  Every `try/except` of the source is modelled by
an `Option` match whose failure branch performs the handler's skip. -/
def qualStep (st : QState) (row : Row) : QState :=
  match row.c0 with
  | none => st
  | some line =>
    if containsSub line "Safe Range:" then
      let param_line := stripLeadingNumber (pyStrip ((pySplit "Safe Range:" line).headD ""))
      match normalize_parameter_name param_line with
      | none =>
        { st with currentParam := none,
                  skippedInvalidParams := st.skippedInvalidParams + 1 }
      | some p =>
        match parseSafeRange line with
        | some (mn, mx) =>
          { st with currentParam := some p, safeMin := some mn, safeMax := some mx }
        | none =>
          { st with currentParam := some p,
                    skippedInvalidParams := st.skippedInvalidParams + 1 }
    else if isHeaderLine line then st
    else
      match st.currentParam with
      | none => st
      | some p =>
        match row.c1, row.c2 with
        | some s1, some s2 =>
          match tsDayFirst line s1 with
          | none => { st with skippedNullValues := st.skippedNullValues + 1 }
          | some ts =>
            match parseFloat s2 with
            | none => { st with skippedNullValues := st.skippedNullValues + 1 }
            | some v =>
              { st with groups :=
                  addRecord st.groups p (mkQualityRec ts p v st.safeMin st.safeMax) }
        | _, _ => { st with skippedNullValues := st.skippedNullValues + 1 }

/-- The raw fold over all rows, before the 80% truncation. -/
def qualRawState (table : List Row) : QState := table.foldl qualStep qualInit

/-- `rows[:cutoff]` with `cutoff = int(len(rows) * INGESTION_PERCENTAGE)` :
keep the first `⌊0.8 · N⌋` records of a group. -/
def truncateGroup (rs : List Record) : List Record := rs.take ((4 * rs.length) / 5)

/-- `process_water_quality_data` : scan all rows, then truncate every
per-parameter group to its historical 80% prefix.  Returns the groups and
the two skip counters (invalid parameters, invalid/missing values). -/
def process_water_quality_data (table : List Row) : Groups String × ℕ × ℕ :=
  let st := qualRawState table
  (st.groups.map (fun kv => (kv.1, truncateGroup kv.2)),
   st.skippedInvalidParams, st.skippedNullValues)

/-! ## Historical-load flow parsing
(src/ingestion/preload_historical.py, `process_flow_data`) -/

/-- The known facility locations checked by `process_flow_data`
(`expected_locations`, lines 245-251). -/
def expected_locations : List String :=
  ["Corporation Water", "Ground Water Source 1", "Ground Water Source 2",
   "Industrial Process", "Tanker Water Supply"]

/-- The flow record literal (lines 284-288). -/
def mkFlowRec (ts loc : String) (tv : ℚ) : Record :=
  [("timestamp", Value.str ts), ("location_name", Value.str loc),
   ("totalizer", Value.num tv)]

/-- Parser state of the flow line scanner. -/
structure FState where
  groups : Groups String
  currentLocation : Option String
deriving DecidableEq

/-- Timestamp handling of the historical flow parser (lines 279-282):
strict `%d-%m-%Y %H:%M:%S` when the date cell has length 10 with two
dashes, permissive parsing otherwise. -/
def preloadFlowTs (d t : String) : Option String :=
  if d.length = 10 ∧ d.toList.count '-' = 2 then tsDayFirst d t else tsDefault d t

/-- One step of the historical flow line scanner (lines 256-294).  Cells
are stringified with `.strip()` when present and become `""` when `NaN`. -/
def flowStep (st : FState) (row : Row) : FState :=
  let a := match row.c0 with | some s => pyStrip s | none => ""
  let b := match row.c1 with | some s => pyStrip s | none => ""
  let c := match row.c2 with | some s => pyStrip s | none => ""
  if pyStartsWith a "Location Name:" then
    { st with currentLocation := some (pyStrip (pyReplace a "Location Name:" "")) }
  else if pyLower a = "date" ∧ pyLower b = "time" ∧ pyLower c = "totalizer" then st
  else if a = "" ∧ b = "" ∧ c = "" then st
  else
    match st.currentLocation with
    | none => st
    | some loc =>
      if loc ≠ "" ∧ a ≠ "" ∧ b ≠ "" ∧ c ≠ "" then
        if a ≠ "########" then
          match preloadFlowTs a b, parseFloat c with
          | some ts, some tv =>
            { st with groups := addRecord st.groups loc (mkFlowRec ts loc tv) }
          | _, _ => st
        else st
      else st

/-- The raw fold over all rows, before filtering/sorting/truncation. -/
def flowRawState (table : List Row) : FState := table.foldl flowStep ⟨[], none⟩

/-- The timestamp string stored in a record (the sort key of
`rows.sort(key=lambda x: x['timestamp'])`; ISO strings sort
chronologically as strings). -/
def tsField (r : Record) : String := strField r "timestamp"

/-- Ordering of records by stored timestamp string. -/
def tsLe (r₁ r₂ : Record) : Prop := tsField r₁ ≤ tsField r₂

instance : DecidableRel tsLe := fun r₁ r₂ => by
  unfold tsLe; infer_instance

instance : IsTotal Record tsLe := ⟨fun r₁ r₂ => le_total (tsField r₁) (tsField r₂)⟩

instance : IsTrans Record tsLe := ⟨fun _ _ _ => le_trans⟩

/-- Python `list.sort` is a stable ascending sort; a stable sort's output
is determined by the order used, so the insertion sort agrees with it. -/
def sortByTs (rs : List Record) : List Record := rs.insertionSort tsLe

/-- `process_flow_data` post-processing (lines 299-314): keep only the
non-empty groups whose location is in the allow-list, sort each group by
timestamp, and truncate each to the historical 80% prefix. -/
def process_flow_data (table : List Row) : Groups String :=
  ((flowRawState table).groups.filter
      (fun kv => ¬ kv.2.isEmpty ∧ kv.1 ∈ expected_locations)).map
    (fun kv => (kv.1, truncateGroup (sortByTs kv.2)))

/-! ## Incremental remaining-20% quality parsing
(src/ingestion/scheduler.py, `get_remaining_data_chunks`) -/

/-- The record literal of the incremental quality path (lines 103-110):
six fields, including the attached location. -/
def mkSchedRec (ts p loc : String) (v : ℚ) (mn mx : Option ℚ) : Record :=
  [("timestamp", Value.str ts), ("parameter_name", Value.str p),
   ("location_name", Value.str loc), ("value", Value.num v),
   ("safe_min", optNum mn), ("safe_max", optNum mx)]

/-- The perturbation factor `0.9 + 0.2 * random.random()` applied to a
stored value, with the draw taken at position `n` of the stream. -/
def randFactor (r : ℕ → ℚ) (n : ℕ) : ℚ := 9/10 + (1/5) * r n

/-- The per-location record fan-out of one parsed reading (the
`for location in self.locations` loop, lines 102-110): one record per
known location, each consuming one fresh random draw. -/
def schedQualRecordsGo (ts p : String) (mn mx : Option ℚ) (v : ℚ) (r : ℕ → ℚ) :
    ℕ → List String → List (String × Record)
  | _, [] => []
  | k, loc :: rest =>
    (loc, mkSchedRec ts p loc (v * randFactor r k) mn mx) ::
      schedQualRecordsGo ts p mn mx v r (k + 1) rest

/-- All records produced from one reading of value `v`, starting at draw
index `k` of the random stream. -/
def schedQualRecords (ts p : String) (mn mx : Option ℚ) (v : ℚ) (r : ℕ → ℚ) (k : ℕ) :
    List (String × Record) :=
  schedQualRecordsGo ts p mn mx v r k locations

/-- Scheduler quality-parser state (groups are keyed by
parameter/location pairs; `rand` is the number of draws consumed). -/
structure SState where
  groups : Groups (String × String)
  currentParam : Option String
  safeMin : Option ℚ
  safeMax : Option ℚ
  rand : ℕ
deriving DecidableEq

/-- Safe-range extraction of the scheduler (line 85-86):
`line.split("Safe Range:")[1].strip(" ()")` then two floats around `to`.
Unlike the historical parser this code is *not* inside a `try`. -/
def schedParseSafeRange (line : String) : Option (ℚ × ℚ) :=
  let s := pyStripSet [' ', '(', ')'] (((pySplit "Safe Range:" line).drop 1).headD "")
  match pySplit "to" s with
  | [a, b] =>
    match parseFloat a, parseFloat b with
    | some mn, some mx => some (mn, mx)
    | _, _ => none
  | _ => none

/-- One step of the scheduler quality scanner (lines 73-113).  Returns
`none` when the uncaught range-parse error would propagate out of the
generator (there is no `try` around the section-header handling). -/
def schedQualStep (r : ℕ → ℚ) (st : SState) (row : Row) : Option SState :=
  match row.c0 with
  | none => some st
  | some line =>
    if containsSub line "Safe Range:" then
      let p := sched_normalize_parameter_name (pyStrip ((pySplit "Safe Range:" line).headD ""))
      if p = "" then some { st with currentParam := some p }
      else
        match schedParseSafeRange line with
        | some (mn, mx) =>
          some { st with currentParam := some p, safeMin := some mn, safeMax := some mx }
        | none => none
    else if isHeaderLine line then some st
    else
      match st.currentParam with
      | none => some st
      | some p =>
        if p = "" then some st
        else
          match row.c1, row.c2 with
          | some s1, some s2 =>
            match tsDefault line s1 with
            | none => some st
            | some ts =>
              match parseFloat s2 with
              | none => some st
              | some v =>
                some { st with
                  groups := (schedQualRecords ts p st.safeMin st.safeMax v r st.rand).foldl
                    (fun g lr => addRecord g (p, lr.1) lr.2) st.groups,
                  rand := st.rand + locations.length }
          | _, _ => some st

/-- Run the scanner over a list of rows, stopping on the uncaught error. -/
def schedQualGo (r : ℕ → ℚ) : SState → List Row → Option SState
  | st, [] => some st
  | st, row :: rest =>
    match schedQualStep r st row with
    | some st' => schedQualGo r st' rest
    | none => none

/-- `get_remaining_data_chunks` (lines 62-118) up to its grouping: process
only the rows from the 80% mark on (`start_idx = int(total_rows * 0.8)`),
and return the per-(parameter, location) groups the generator later slices
into chunks.  `none` models the uncaught parse error. -/
def get_remaining_data_chunks (table : List Row) (r : ℕ → ℚ) :
    Option (Groups (String × String)) :=
  (schedQualGo r ⟨[], none, none, none, 0⟩
      (table.drop ((4 * table.length) / 5))).map SState.groups

/-! ## Incremental remaining-20% flow parsing
(src/ingestion/scheduler.py, `process_flow_chunks`) -/

/-- The scheduler flow record literal (lines 143-147); the location may be
Python `None` when no section header was seen. -/
def mkSchedFlowRec (ts : String) (loc : Option String) (tv : ℚ) : Record :=
  [("timestamp", Value.str ts),
   ("location_name", match loc with | some l => Value.str l | none => Value.null),
   ("totalizer", Value.num tv)]

/-- Scheduler flow-parser state; groups are keyed by the raw
`current_location`, which starts as `None`. -/
structure SFState where
  groups : Groups (Option String)
  currentLocation : Option String
deriving DecidableEq

/-- One step of the scheduler flow scanner (lines 129-149).  Cells are
stringified with `str(...)` (no strip, `NaN` becomes `nan`); there is no
allow-list check at all. -/
def schedFlowStep (st : SFState) (row : Row) : SFState :=
  let a := cellStr row.c0
  let b := cellStr row.c1
  let c := cellStr row.c2
  if pyStartsWith a "Location Name:" then
    { st with currentLocation := some (pyStrip (pyReplace a "Location Name:" "")) }
  else if a = "" ∨ b = "" ∨ c = "" ∨ a = "########" then st
  else
    match tsDefault a b, parseFloat c with
    | some ts, some tv =>
      { st with groups :=
          addRecord st.groups st.currentLocation (mkSchedFlowRec ts st.currentLocation tv) }
    | _, _ => st

/-- `process_flow_chunks` (lines 120-153) up to its chunk slicing: process
only the rows from the 80% mark on and return the per-location groups. -/
def process_flow_chunks (table : List Row) : Groups (Option String) :=
  ((table.drop ((4 * table.length) / 5)).foldl schedFlowStep ⟨[], none⟩).groups

/-! ## Alert evaluation
(`show_alerts` in src/dashwork/dash.py lines 276-295 and src/app/main.py
lines 481-526 — the loops are textually identical) -/

/-- The alert record literal appended by `show_alerts` (dash.py lines
283-295): the five fields of the reading and its range — nothing else. -/
def mkAlertRec (ts p : String) (v mn mx : ℚ) : Record :=
  [("timestamp", Value.str ts), ("parameter", Value.str p),
   ("value", Value.num v), ("safe_min", Value.num mn), ("safe_max", Value.num mx)]

/-- The alert loop of `show_alerts` : one input reading is
`(timestamp, parameter_name, value)` after the numeric coercion and
`dropna` preamble; a reading is flagged exactly when its parameter is in
`CONFIG["SAFE_RANGES"]` and `not (min_val <= value <= max_val)`. -/
def show_alerts (readings : List (String × String × ℚ)) : List Record :=
  readings.filterMap (fun rd =>
    match CONFIG_SAFE_RANGES.lookup rd.2.1 with
    | some (mn, mx) =>
      if ¬ (mn ≤ rd.2.2 ∧ rd.2.2 ≤ mx) then some (mkAlertRec rd.1 rd.2.1 rd.2.2 mn mx)
      else none
    | none => none)

/-- `RemainingDataIngestor.check_alerts` (scheduler.py lines 168-178):
`min_val, max_val = self.safe_ranges.get(param, (None, None))` followed by
`if min_val and (value < min_val or value > max_val)`.  Python truthiness
makes both `None` *and* `0` falsy, so the test body models `min_val ≠ 0`
for a present parameter and never fires for an absent one.  The returned
list holds the `(param, value)` pairs whose alert line is printed. -/
def check_alerts (batch : List Record) : List (String × ℚ) :=
  batch.filterMap (fun rec =>
    let param := strField rec "parameter_name"
    let v := numField rec "value"
    match sched_safe_ranges.lookup param with
    | some (mn, mx) =>
      if mn ≠ 0 ∧ (v < mn ∨ v > mx) then some (param, v) else none
    | none => none)

/-! ## Realtime simulator
(src/ingestion/simulate_realtime.py, `simulate_readings`) -/

/-- The simulator quality record literal (lines 65-72): the same five
fields as the historical parser, no location. -/
def mkSimQualityRec (ts p : String) (v : ℚ) : Record :=
  [("timestamp", Value.str ts), ("parameter_name", Value.str p),
   ("value", Value.num v),
   ("safe_min", Value.num ((sim_safe_ranges.lookup p).getD (0, 0)).1),
   ("safe_max", Value.num ((sim_safe_ranges.lookup p).getD (0, 0)).2)]

/-- The simulator flow record literal (lines 75-79). -/
def mkSimFlowRec (ts loc : String) (tv : ℚ) : Record :=
  [("timestamp", Value.str ts), ("location_name", Value.str loc),
   ("totalizer", Value.num tv)]

/-- Round-half-to-even on a rational, the rounding mode of Python's
`round`.  (Python rounds the nearest binary double; the claims under
study never depend on the rounded numeric value.) -/
def roundHalfEven (q : ℚ) : ℤ :=
  let f := ⌊q⌋
  if q - f < 1/2 then f
  else if 1/2 < q - f then f + 1
  else if 2 ∣ f then f else f + 1

/-- Model of Python `round(x, 2)`. -/
def round2 (q : ℚ) : ℚ := (roundHalfEven (q * 100) : ℚ) / 100

/-- `generate_realistic_value` (lines 41-54): `random.uniform(a, b)` is
`a + (b - a) * random()`; Ground Water locations are biased low and
Industrial ones high (substring tests); with probability 5% the value is
pushed out of range by a factor chosen from `[0.8, 1.2]` (the choice is
modelled as one extra draw).  Returns the value and the next unused draw
index. -/
def generate_realistic_value (param loc : String) (r : ℕ → ℚ) (k : ℕ) : ℚ × ℕ :=
  let ab := (sim_safe_ranges.lookup param).getD (0, 0)
  let base := ab.1 + (ab.2 - ab.1) * r k
  let base :=
    if containsSub loc "Ground Water" then base * (9/10)
    else if containsSub loc "Industrial" then base * (11/10)
    else base
  if r (k + 1) < 1/20 then
    (base * (if r (k + 2) < 1/2 then 4/5 else 6/5), k + 3)
  else
    (base, k + 2)

/-- The inner `for param in self.parameters` loop of `simulate_readings` :
one quality record per parameter for the given location. -/
def simQualRow (now loc : String) (r : ℕ → ℚ) : ℕ → List String → List Record × ℕ
  | k, [] => ([], k)
  | k, p :: ps =>
    let vk := generate_realistic_value p loc r k
    let rest := simQualRow now loc r vk.2 ps
    (mkSimQualityRec now p (round2 vk.1) :: rest.1, rest.2)

/-- The outer `for location in self.locations` loop: all quality records
plus one flow record (`round(random.uniform(1000, 5000), 2)`) per
location. -/
def simulateGo (now : String) (r : ℕ → ℚ) : ℕ → List String → List Record × List Record
  | _, [] => ([], [])
  | k, loc :: rest =>
    let q1 := simQualRow now loc r k parameters
    let fRec := mkSimFlowRec now loc (round2 (1000 + (5000 - 1000) * r q1.2))
    let tail := simulateGo now r (q1.2 + 1) rest
    (q1.1 ++ tail.1, fRec :: tail.2)

/-- `simulate_readings` (lines 56-81): one synthetic reading set; `now` is
the shared timestamp string. -/
def simulate_readings (now : String) (r : ℕ → ℚ) : List Record × List Record :=
  simulateGo now r 0 locations

/-! ## Batch insertion
(src/ingestion/preload_historical.py, `insert_data_batch`) -/

/-- The slices `data[i:i + batch_size]` for `i in range(0, len(data),
batch_size)`, built with fuel (each step consumes at least one element,
so fuel `length` suffices for a positive batch size). -/
def chunksOfFuel (n : ℕ) : ℕ → List Record → List (List Record)
  | 0, _ => []
  | _ + 1, [] => []
  | f + 1, l@(_ :: _) => l.take n :: chunksOfFuel n f (l.drop n)

/-- All batches of at most `n` records. -/
def chunksOf (n : ℕ) (data : List Record) : List (List Record) :=
  chunksOfFuel n data.length data

/-- The batch loop with its per-call HTTP outcome: `status i` is the
response status of the `i`-th POST, `none` modelling a raised network
exception (no response at all).  A response outside {200, 201} is logged
and skipped; an exception propagates to the outer handler, which returns
0 (lines 326-347). -/
def insertBatchesGo (status : ℕ → Option ℕ) : ℕ → ℕ → List (List Record) → ℕ
  | total, _, [] => total
  | total, i, b :: bs =>
    match status i with
    | none => 0
    | some code =>
      insertBatchesGo status
        (if code = 200 ∨ code = 201 then total + b.length else total) (i + 1) bs

/-- `insert_data_batch` with `batch_size = 1000` : POST each batch in
turn and return the number of records in the batches that were accepted
with status 200 or 201. -/
def insert_data_batch (data : List Record) (status : ℕ → Option ℕ) : ℕ :=
  insertBatchesGo status 0 0 (chunksOf 1000 data)

/-- The total row count of the batches whose response status was 200 or
201, batch `i` receiving response `status i`. -/
def successTotal (status : ℕ → Option ℕ) : ℕ → List (List Record) → ℕ
  | _, [] => 0
  | i, b :: bs =>
    (if status i = some 200 ∨ status i = some 201 then b.length else 0) +
      successTotal status (i + 1) bs

/-- Every record stored anywhere in a group map satisfies `P`. -/
def AllRecs (P : Record → Prop) (g : Groups κ) : Prop :=
  ∀ kv ∈ g, ∀ rec ∈ kv.2, P rec

/-! ## Helper lemmas -/

theorem allRecs_nil {P : Record → Prop} : AllRecs P ([] : Groups κ) := by
  intro kv hkv
  simp at hkv

theorem allRecs_addRecord [DecidableEq κ] {P : Record → Prop} {g : Groups κ}
    {k : κ} {r : Record} (hg : AllRecs P g) (hr : P r) :
    AllRecs P (addRecord g k r) := by
  induction g with
  | nil =>
    intro kv hkv rec hrec
    simp only [addRecord, List.mem_singleton] at hkv
    subst hkv
    simp only [List.mem_singleton] at hrec
    subst hrec
    exact hr
  | cons hd tl ih =>
    have htl : AllRecs P tl := fun kv hkv rec hrec => hg kv (List.mem_cons_of_mem hd hkv) rec hrec
    have hhd : ∀ rec ∈ hd.2, P rec := fun rec hrec => hg hd (List.mem_cons_self hd tl) rec hrec
    intro kv hkv rec hrec
    simp only [addRecord] at hkv
    rcases hd with ⟨k', rs⟩
    by_cases hk : k' = k
    · simp only [hk, if_pos rfl] at hkv
      rcases List.mem_cons.1 hkv with h | h
      · subst h
        rcases List.mem_append.1 hrec with h' | h'
        · exact hhd rec h'
        · simp only [List.mem_singleton] at h'
          subst h'
          exact hr
      · exact htl kv h rec hrec
    · simp only [if_neg hk] at hkv
      rcases List.mem_cons.1 hkv with h | h
      · subst h
        exact hhd rec hrec
      · exact ih htl kv h rec hrec

theorem sumLens_addRecord [DecidableEq κ] (g : Groups κ) (k : κ) (r : Record) :
    sumLens (addRecord g k r) = sumLens g + 1 := by
  induction g with
  | nil => simp [addRecord, sumLens]
  | cons hd tl ih =>
    rcases hd with ⟨k', rs⟩
    by_cases hk : k' = k
    · simp [addRecord, hk, sumLens]
      omega
    · simp [addRecord, hk, sumLens] at ih ⊢
      omega

theorem qualStep_allRecs {P : Record → Prop} {st : QState} (row : Row)
    (hg : AllRecs P st.groups)
    (hP : ∀ ts p v mn mx, P (mkQualityRec ts p v mn mx)) :
    AllRecs P (qualStep st row).groups := by
  unfold qualStep
  rcases row with ⟨c0, c1, c2⟩
  dsimp only
  rcases c0 with _ | line
  · exact hg
  · dsimp only
    split
    · split
      · exact hg
      · split
        · exact hg
        · exact hg
    · split
      · exact hg
      · split
        · exact hg
        · split
          · split
            · exact hg
            · split
              · exact hg
              · exact allRecs_addRecord hg (hP _ _ _ _ _)
          · exact hg

theorem qualRawState_allRecs {P : Record → Prop} (table : List Row)
    (hP : ∀ ts p v mn mx, P (mkQualityRec ts p v mn mx)) :
    AllRecs P (qualRawState table).groups := by
  unfold qualRawState
  generalize hst : qualInit = st0
  have h0 : AllRecs P st0.groups := by
    rw [← hst]
    exact allRecs_nil
  clear hst
  induction table generalizing st0 with
  | nil => exact h0
  | cons row rest ih => exact ih (qualStep st0 row) (qualStep_allRecs row h0 hP)

/-- Size measure of the quality-parser state: emitted records plus both
skip counters. -/
def qMeasure (st : QState) : ℕ :=
  sumLens st.groups + st.skippedInvalidParams + st.skippedNullValues

theorem qualStep_measure (st : QState) (row : Row) :
    qMeasure (qualStep st row) ≤ qMeasure st + 1 := by
  unfold qualStep
  rcases row with ⟨c0, c1, c2⟩
  dsimp only
  rcases c0 with _ | line
  · show qMeasure st ≤ qMeasure st + 1
    omega
  · dsimp only
    split
    all_goals try split
    all_goals try split
    all_goals try split
    all_goals try split
    all_goals try split
    all_goals
      first
      | (show qMeasure st ≤ qMeasure st + 1; omega)
      | (simp [qMeasure, sumLens_addRecord]; omega)

theorem qualFold_measure (table : List Row) (st0 : QState) :
    qMeasure (table.foldl qualStep st0) ≤ qMeasure st0 + table.length := by
  induction table generalizing st0 with
  | nil => simp
  | cons row rest ih =>
    calc qMeasure ((row :: rest).foldl qualStep st0)
        = qMeasure (rest.foldl qualStep (qualStep st0 row)) := rfl
      _ ≤ qMeasure (qualStep st0 row) + rest.length := ih _
      _ ≤ (qMeasure st0 + 1) + rest.length := by
          have := qualStep_measure st0 row
          omega
      _ = qMeasure st0 + (row :: rest).length := by simp; omega

theorem sumLens_map_truncate_le (g : Groups κ) :
    sumLens (g.map (fun kv => (kv.1, truncateGroup kv.2))) ≤ sumLens g := by
  induction g with
  | nil => simp [sumLens]
  | cons hd tl ih =>
    simp only [sumLens, List.map_cons, List.sum_cons] at ih ⊢
    have : (truncateGroup hd.2).length ≤ hd.2.length := by
      simp [truncateGroup, List.length_take]
    omega

theorem sumLens_filter_le (p : κ × List Record → Bool) (g : Groups κ) :
    sumLens (g.filter p) ≤ sumLens g := by
  induction g with
  | nil => simp [sumLens]
  | cons hd tl ih =>
    simp only [List.filter_cons]
    split
    · simp only [sumLens, List.map_cons, List.sum_cons] at ih ⊢
      omega
    · simp only [sumLens, List.map_cons, List.sum_cons] at ih ⊢
      omega

theorem flowStep_measure (st : FState) (row : Row) :
    sumLens (flowStep st row).groups ≤ sumLens st.groups + 1 := by
  unfold flowStep
  dsimp only
  split
  all_goals try split
  all_goals try split
  all_goals try split
  all_goals try split
  all_goals try split
  all_goals try split
  all_goals
    first
    | (show sumLens st.groups ≤ sumLens st.groups + 1; omega)
    | (simp [sumLens_addRecord]; omega)
    | simp [sumLens_addRecord]

theorem flowFold_measure (table : List Row) (st0 : FState) :
    sumLens (table.foldl flowStep st0).groups ≤ sumLens st0.groups + table.length := by
  induction table generalizing st0 with
  | nil => simp
  | cons row rest ih =>
    calc sumLens ((row :: rest).foldl flowStep st0).groups
        = sumLens (rest.foldl flowStep (flowStep st0 row)).groups := rfl
      _ ≤ sumLens (flowStep st0 row).groups + rest.length := ih _
      _ ≤ (sumLens st0.groups + 1) + rest.length := by
          have := flowStep_measure st0 row
          omega
      _ = sumLens st0.groups + (row :: rest).length := by simp; omega

theorem allRecs_fanout_fold {P : Record → Prop} (p : String)
    (l : List (String × Record)) :
    ∀ g : Groups (String × String), AllRecs P g → (∀ x ∈ l, P x.2) →
      AllRecs P (l.foldl (fun g lr => addRecord g (p, lr.1) lr.2) g) := by
  induction l with
  | nil => intro g hg _; exact hg
  | cons hd tl ih =>
    intro g hg hl
    exact ih _ (allRecs_addRecord hg (hl hd (List.mem_cons_self hd tl)))
      (fun x hx => hl x (List.mem_cons_of_mem hd hx))

theorem schedQualRecordsGo_all {P : Record → Prop} (ts p : String)
    (mn mx : Option ℚ) (v : ℚ) (r : ℕ → ℚ)
    (hP : ∀ loc v', P (mkSchedRec ts p loc v' mn mx)) :
    ∀ k locs, ∀ x ∈ schedQualRecordsGo ts p mn mx v r k locs, P x.2 := by
  intro k locs
  induction locs generalizing k with
  | nil => intro x hx; simp [schedQualRecordsGo] at hx
  | cons loc rest ih =>
    intro x hx
    simp only [schedQualRecordsGo, List.mem_cons] at hx
    rcases hx with hx | hx
    · subst hx; exact hP _ _
    · exact ih _ x hx

theorem schedQualStep_allRecs {P : Record → Prop} (r : ℕ → ℚ) (st : SState)
    (row : Row) (st' : SState)
    (hstep : schedQualStep r st row = some st')
    (hg : AllRecs P st.groups)
    (hP : ∀ ts p loc v mn mx, P (mkSchedRec ts p loc v mn mx)) :
    AllRecs P st'.groups := by
  unfold schedQualStep at hstep
  rcases row with ⟨c0, c1, c2⟩
  dsimp only at hstep
  rcases c0 with _ | line
  · cases hstep; exact hg
  · dsimp only at hstep
    split at hstep
    · split at hstep
      · cases hstep; exact hg
      · split at hstep
        · cases hstep; exact hg
        · cases hstep
    · split at hstep
      · cases hstep; exact hg
      · split at hstep
        · cases hstep; exact hg
        · split at hstep
          · cases hstep; exact hg
          · split at hstep
            · split at hstep
              · cases hstep; exact hg
              · split at hstep
                · cases hstep; exact hg
                · cases hstep
                  exact allRecs_fanout_fold _ _ _ hg
                    (schedQualRecordsGo_all _ _ _ _ _ _ (fun loc v' => hP _ _ _ _ _ _) _ _)
            · cases hstep; exact hg

theorem schedQualGo_allRecs {P : Record → Prop} (r : ℕ → ℚ)
    (hP : ∀ ts p loc v mn mx, P (mkSchedRec ts p loc v mn mx)) :
    ∀ rows st st', schedQualGo r st rows = some st' → AllRecs P st.groups →
      AllRecs P st'.groups := by
  intro rows
  induction rows with
  | nil =>
    intro st st' h hg
    simp only [schedQualGo] at h
    cases h
    exact hg
  | cons row rest ih =>
    intro st st' h hg
    simp only [schedQualGo] at h
    rcases hmid : schedQualStep r st row with _ | stmid
    · rw [hmid] at h; cases h
    · rw [hmid] at h
      exact ih stmid st' h (schedQualStep_allRecs r st row stmid hmid hg hP)

theorem simQualRow_all {P : Record → Prop} (now loc : String) (r : ℕ → ℚ)
    (hP : ∀ p v, P (mkSimQualityRec now p v)) :
    ∀ k ps, ∀ rec ∈ (simQualRow now loc r k ps).1, P rec := by
  intro k ps
  induction ps generalizing k with
  | nil => intro rec hrec; simp [simQualRow] at hrec
  | cons p rest ih =>
    intro rec hrec
    simp only [simQualRow, List.mem_cons] at hrec
    rcases hrec with h | h
    · subst h; exact hP _ _
    · exact ih _ rec h

theorem simulateGo_all {P : Record → Prop} (now : String) (r : ℕ → ℚ)
    (hP : ∀ p v, P (mkSimQualityRec now p v)) :
    ∀ k locs, ∀ rec ∈ (simulateGo now r k locs).1, P rec := by
  intro k locs
  induction locs generalizing k with
  | nil => intro rec hrec; simp [simulateGo] at hrec
  | cons loc rest ih =>
    intro rec hrec
    simp only [simulateGo, List.mem_append] at hrec
    rcases hrec with h | h
    · exact simQualRow_all now loc r hP _ _ rec h
    · exact ih _ rec h

theorem chunksOfFuel_length :
    ∀ f (l : List Record), l.length ≤ f →
      (chunksOfFuel 1000 f l).length = (l.length + 999) / 1000 := by
  intro f
  induction f with
  | zero =>
    intro l hl
    have : l = [] := List.length_eq_zero.1 (Nat.le_zero.1 hl)
    subst this
    simp [chunksOfFuel]
  | succ f ih =>
    intro l hl
    match l with
    | [] => simp [chunksOfFuel]
    | a :: tl =>
      have hl' : tl.length + 1 ≤ f + 1 := by
        simpa using hl
      have hdrop : ((a :: tl).drop 1000).length ≤ f := by
        simp only [List.length_drop, List.length_cons]
        omega
      have hrec := ih _ hdrop
      simp only [List.length_drop, List.length_cons] at hrec
      simp only [chunksOfFuel, List.length_cons, hrec]
      omega

theorem chunksOfFuel_sizes :
    ∀ f (l : List Record), ∀ b ∈ chunksOfFuel 1000 f l, b.length ≤ 1000 := by
  intro f
  induction f with
  | zero => intro l b hb; simp [chunksOfFuel] at hb
  | succ f ih =>
    intro l b hb
    match l with
    | [] => simp [chunksOfFuel] at hb
    | a :: tl =>
      simp only [chunksOfFuel, List.mem_cons] at hb
      rcases hb with h | h
      · subst h
        simpa using List.length_take_le 1000 (a :: tl)
      · exact ih _ b h

theorem insertBatchesGo_eq (status : ℕ → Option ℕ)
    (hs : ∀ i, (status i).isSome) :
    ∀ bs i t, insertBatchesGo status t i bs = t + successTotal status i bs := by
  intro bs
  induction bs with
  | nil => intro i t; simp [insertBatchesGo, successTotal]
  | cons b rest ih =>
    intro i t
    obtain ⟨code, hcode⟩ := Option.isSome_iff_exists.1 (hs i)
    have h1 : insertBatchesGo status t i (b :: rest) =
        insertBatchesGo status (if code = 200 ∨ code = 201 then t + b.length else t)
          (i + 1) rest := by
      simp only [insertBatchesGo, hcode]
    have h2 : successTotal status i (b :: rest) =
        (if code = 200 ∨ code = 201 then b.length else 0) +
          successTotal status (i + 1) rest := by
      simp only [successTotal, hcode, Option.some.injEq]
    rw [h1, h2, ih]
    by_cases h : code = 200 ∨ code = 201
    · simp only [if_pos h]
      omega
    · simp only [if_neg h]
      omega

/-! ## Claims -/

/-- C1 (amended): in the historical-load parser, every raw parameter label
accepted by `normalize_parameter_name` normalizes to a member of the fixed
8-parameter allow-list (labels that do not are rejected with `None`).  The
incremental parser does not share this property: its normalization returns
the cleaned label unvalidated — see the counterexample. -/
theorem C1_preload_normalize_allowlist (raw p : String)
    (h : normalize_parameter_name raw = some p) : p ∈ ALLOWED_PARAMETERS := by
  by_cases hmem : preloadCleanedLabel raw ∈ ALLOWED_PARAMETERS
  · rw [normalize_parameter_name, if_pos hmem] at h
    exact (Option.some.inj h) ▸ hmem
  · rw [normalize_parameter_name, if_neg hmem] at h
    exact Option.noConfusion h

/-- C1 witness: the label `1. ETP(pH)` is accepted and lands in the
allow-list. -/
theorem C1_witness :
    normalize_parameter_name "1. ETP(pH)" = some "ETP (pH)" ∧
      "ETP (pH)" ∈ ALLOWED_PARAMETERS :=
  ⟨by decide, C1_preload_normalize_allowlist "1. ETP(pH)" "ETP (pH)" (by decide)⟩

set_option maxHeartbeats 2000000 in
/-- C1 counterexample: the incremental remaining-20% parser emits records
under the label `FOO`, which is not in the allow-list.  The table has ten
rows so that the tail processed from the 80% mark holds a section header
whose label normalizes to `FOO` (not rejected: the scheduler version of
`normalize_parameter_name` has no allow-list check) followed by one data
row; the resulting group map contains a `("FOO", location)` key with a
record under it, refuting the claim for the incremental parser. -/
theorem C1_counterexample :
    ((get_remaining_data_chunks
        (List.replicate 8 ⟨none, none, none⟩ ++
          [⟨some "1. FOO Safe Range: (1 to 2)", none, none⟩,
           ⟨some "01-06-2025", some "08:30:00", some "1.5"⟩])
        (fun _ => 0)).getD []).lookup ("FOO", "Corporation Water") ≠ none ∧
      "FOO" ∉ ALLOWED_PARAMETERS := by
  with_unfolding_all decide

set_option maxHeartbeats 2000000 in
/-- C3 (code bug): `check_alerts` in the scheduler never flags the
parameter `STP (BOD)`, whose configured safe range is `(0, 5)` : the guard
`if min_val and (value < min_val or value > max_val)` treats the minimum
bound `0` as falsy, so a reading of value 10 — strictly above the maximum
5, for a parameter present in the safe-range table — produces no alert,
contradicting the claim (and the spec, which the dashboard evaluator in
`dash.py` does satisfy). -/
theorem C3_check_alerts_misses_bod :
    sched_safe_ranges.lookup "STP (BOD)" = some (0, 5) ∧ (5 : ℚ) < 10 ∧
      check_alerts
        [mkSchedRec "2025-01-01T00:00:00" "STP (BOD)" "Corporation Water" 10
          (some 0) (some 5)] = [] := by
  refine ⟨by decide, by norm_num, ?_⟩
  with_unfolding_all decide

/-- C4 counterexample: a HUMIDITY reading of value 100 (above 121% of the
maximum bound 70, hence `CRITICAL` according to the claim) yields a
violation record that carries only timestamp, parameter, value and range —
there is no severity field at all in the alert evaluator's output. -/
theorem C4_counterexample :
    show_alerts [("2025-01-01T00:00:00", "HUMIDITY", 100)] =
        [mkAlertRec "2025-01-01T00:00:00" "HUMIDITY" 100 30 70] ∧
      "severity" ∉ keysOf (mkAlertRec "2025-01-01T00:00:00" "HUMIDITY" 100 30 70) ∧
      (121 : ℚ) / 100 * 70 < 100 := by
  refine ⟨?_, by decide, by norm_num⟩
  with_unfolding_all decide

/-- C4 (amended): every violation record returned by the alert evaluator
carries exactly the fields timestamp, parameter, value, safe_min and
safe_max; no severity tag of any kind is attached (the alerts panel of the
application is explicitly simplified without severity). -/
theorem C4_no_severity (readings : List (String × String × ℚ)) (rec : Record)
    (h : rec ∈ show_alerts readings) :
    keysOf rec = ["timestamp", "parameter", "value", "safe_min", "safe_max"] ∧
      "severity" ∉ keysOf rec := by
  unfold show_alerts at h
  obtain ⟨rd, _, hfa⟩ := List.mem_filterMap.1 h
  rcases hlk : CONFIG_SAFE_RANGES.lookup rd.2.1 with _ | ⟨mn, mx⟩
  · rw [hlk] at hfa
    cases hfa
  · rw [hlk] at hfa
    dsimp only at hfa
    split at hfa
    · injection hfa with h'
      subst h'
      refine ⟨rfl, ?_⟩
      have hk : keysOf (mkAlertRec rd.1 rd.2.1 rd.2.2 mn mx) =
          ["timestamp", "parameter", "value", "safe_min", "safe_max"] := rfl
      rw [hk]
      decide
    · cases hfa

/-- C4 witness: the amended statement applied to an out-of-range concrete
reading. -/
theorem C4_witness :
    keysOf (mkAlertRec "2025-01-01T00:00:00" "HUMIDITY" 100 30 70) =
        ["timestamp", "parameter", "value", "safe_min", "safe_max"] ∧
      "severity" ∉ keysOf (mkAlertRec "2025-01-01T00:00:00" "HUMIDITY" 100 30 70) :=
  C4_no_severity [("2025-01-01T00:00:00", "HUMIDITY", 100)]
    (mkAlertRec "2025-01-01T00:00:00" "HUMIDITY" 100 30 70)
    (by with_unfolding_all decide)

/-- C2 counterexample: the historical quality parser does not sort a
parameter group before truncating, so when the file rows are not in
chronological order the 80% subset is a prefix of the *file* order and is
not in timestamp order (nor a prefix of the timestamp-sorted group).  A
HUMIDITY section with data rows dated 02-01, 01-01, 03-01 yields the
historical pair (02-01, 01-01), whose timestamps descend. -/
theorem C2_counterexample :
    (((process_water_quality_data
        [⟨some "1. HUMIDITY Safe Range: (30 to 70)", none, none⟩,
         ⟨some "02-01-2025", some "00:00:00", some "50"⟩,
         ⟨some "01-01-2025", some "00:00:00", some "40"⟩,
         ⟨some "03-01-2025", some "00:00:00", some "45"⟩]).1.lookup
          "HUMIDITY").getD []).map tsField =
        ["2025-01-02T00:00:00", "2025-01-01T00:00:00"] ∧
      ¬ (("2025-01-02T00:00:00" : String) ≤ "2025-01-01T00:00:00") := by
  constructor
  · with_unfolding_all decide
  · with_unfolding_all decide

/-- C2 (amended): for every per-key group of N parsed readings, the
historical subset kept by the load is exactly the first `⌊0.8 · N⌋`
records of the group — for quality data a prefix of the group in file
order (not re-sorted), for flow data a prefix of the group sorted by
timestamp (hence in timestamp order). -/
theorem C2_historical_cut :
    (∀ table p g, (p, g) ∈ (process_water_quality_data table).1 →
      ∃ raw, (p, raw) ∈ (qualRawState table).groups ∧ g = truncateGroup raw ∧
        g.length = (4 * raw.length) / 5 ∧ g <+: raw) ∧
    (∀ table loc g, (loc, g) ∈ process_flow_data table →
      ∃ raw, (loc, raw) ∈ (flowRawState table).groups ∧
        g = truncateGroup (sortByTs raw) ∧ g.length = (4 * raw.length) / 5 ∧
        g <+: sortByTs raw ∧ g.Pairwise tsLe) := by
  constructor
  · intro table p g h
    obtain ⟨kv, hkv, heq⟩ := List.mem_map.1 h
    rw [Prod.ext_iff] at heq
    obtain ⟨h1, h2⟩ := heq
    dsimp only at h1 h2
    subst h1
    subst h2
    refine ⟨kv.2, by simpa using hkv, rfl, ?_, ?_⟩
    · simp only [truncateGroup, List.length_take]
      omega
    · exact ⟨kv.2.drop ((4 * kv.2.length) / 5), List.take_append_drop _ _⟩
  · intro table loc g h
    obtain ⟨kv, hkv, heq⟩ := List.mem_map.1 h
    have hkv' := (List.mem_filter.1 hkv).1
    rw [Prod.ext_iff] at heq
    obtain ⟨h1, h2⟩ := heq
    dsimp only at h1 h2
    subst h1
    subst h2
    have hsorted : List.Sorted tsLe (sortByTs kv.2) := List.sorted_insertionSort tsLe kv.2
    have hlen : (sortByTs kv.2).length = kv.2.length :=
      (List.perm_insertionSort tsLe kv.2).length_eq
    refine ⟨kv.2, by simpa using hkv', rfl, ?_, ?_, ?_⟩
    · simp only [truncateGroup, List.length_take, hlen]
      omega
    · exact ⟨(sortByTs kv.2).drop ((4 * (sortByTs kv.2).length) / 5),
        List.take_append_drop _ _⟩
    · exact List.Pairwise.sublist (List.take_sublist _ _) hsorted

/-- C2 witness: the amended statement applied to a two-reading HUMIDITY
quality group (historical subset of one record, a prefix of the raw
group) and to a two-reading Corporation Water flow group. -/
theorem C2_witness :
    (∃ raw, ("HUMIDITY", raw) ∈
        (qualRawState
          [⟨some "1. HUMIDITY Safe Range: (30 to 70)", none, none⟩,
           ⟨some "01-01-2025", some "00:00:00", some "40"⟩,
           ⟨some "02-01-2025", some "00:00:00", some "50"⟩]).groups ∧
      [mkQualityRec "2025-01-01T00:00:00" "HUMIDITY" 40 (some 30) (some 70)] =
        truncateGroup raw ∧
      ([mkQualityRec "2025-01-01T00:00:00" "HUMIDITY" 40 (some 30) (some 70)] :
        List Record).length = (4 * raw.length) / 5 ∧
      [mkQualityRec "2025-01-01T00:00:00" "HUMIDITY" 40 (some 30) (some 70)] <+: raw) ∧
    (∃ raw, ("Corporation Water", raw) ∈
        (flowRawState
          [⟨some "Location Name: Corporation Water", none, none⟩,
           ⟨some "01-01-2025", some "00:00:00", some "100"⟩,
           ⟨some "02-01-2025", some "00:00:00", some "200"⟩]).groups ∧
      [mkFlowRec "2025-01-01T00:00:00" "Corporation Water" 100] =
        truncateGroup (sortByTs raw) ∧
      ([mkFlowRec "2025-01-01T00:00:00" "Corporation Water" 100] :
        List Record).length = (4 * raw.length) / 5 ∧
      [mkFlowRec "2025-01-01T00:00:00" "Corporation Water" 100] <+: sortByTs raw ∧
      ([mkFlowRec "2025-01-01T00:00:00" "Corporation Water" 100] :
        List Record).Pairwise tsLe) :=
  ⟨C2_historical_cut.1
      [⟨some "1. HUMIDITY Safe Range: (30 to 70)", none, none⟩,
       ⟨some "01-01-2025", some "00:00:00", some "40"⟩,
       ⟨some "02-01-2025", some "00:00:00", some "50"⟩]
      "HUMIDITY"
      [mkQualityRec "2025-01-01T00:00:00" "HUMIDITY" 40 (some 30) (some 70)]
      (by with_unfolding_all decide),
    C2_historical_cut.2
      [⟨some "Location Name: Corporation Water", none, none⟩,
       ⟨some "01-01-2025", some "00:00:00", some "100"⟩,
       ⟨some "02-01-2025", some "00:00:00", some "200"⟩]
      "Corporation Water"
      [mkFlowRec "2025-01-01T00:00:00" "Corporation Water" 100]
      (by with_unfolding_all decide)⟩

/-- C5: for every quality reading of value `v` accepted by the incremental
remaining-20% parser, exactly one record is produced per known location —
five records, one for each entry of the fixed location list, all sharing
the reading's timestamp, parameter and safe range — and each stored value
is `v * f` for a fresh random factor `f = 0.9 + 0.2 * random()` with
`0.9 ≤ f < 1.1`.  The last conjunct ties the fan-out to the scanner: a
data row processed with an active parameter emits exactly these records
and consumes exactly five draws. -/
theorem C5_location_fanout (ts p : String) (mn mx : Option ℚ) (v : ℚ)
    (r : ℕ → ℚ) (k : ℕ) (hr : ∀ n, 0 ≤ r n ∧ r n < 1) :
    (schedQualRecords ts p mn mx v r k).length = locations.length ∧
    schedQualRecords ts p mn mx v r k =
      [("Corporation Water",
          mkSchedRec ts p "Corporation Water" (v * randFactor r k) mn mx),
       ("Ground Water Source 1",
          mkSchedRec ts p "Ground Water Source 1" (v * randFactor r (k + 1)) mn mx),
       ("Ground Water Source 2",
          mkSchedRec ts p "Ground Water Source 2" (v * randFactor r (k + 2)) mn mx),
       ("Industrial Process",
          mkSchedRec ts p "Industrial Process" (v * randFactor r (k + 3)) mn mx),
       ("Tanker Water Supply",
          mkSchedRec ts p "Tanker Water Supply" (v * randFactor r (k + 4)) mn mx)] ∧
    (∀ n, 9/10 ≤ randFactor r n ∧ randFactor r n < 11/10) ∧
    (∀ st : SState, ∀ line s1 s2 : String,
      st.currentParam = some p → p ≠ "" →
      ¬ containsSub line "Safe Range:" → ¬ isHeaderLine line →
      tsDefault line s1 = some ts → parseFloat s2 = some v →
      schedQualStep r st ⟨some line, some s1, some s2⟩ =
        some { st with
          groups := (schedQualRecords ts p st.safeMin st.safeMax v r st.rand).foldl
            (fun g lr => addRecord g (p, lr.1) lr.2) st.groups,
          rand := st.rand + locations.length }) := by
  refine ⟨rfl, rfl, ?_, ?_⟩
  · intro n
    have h := hr n
    unfold randFactor
    constructor
    · linarith [h.1]
    · linarith [h.2]
  · intro st line s1 s2 h1 h2 h3 h4 h5 h6
    unfold schedQualStep
    dsimp only
    rw [if_neg h3, if_neg h4]
    simp only [h1, h5, h6, if_neg h2]

/-- C5 witness: the fan-out applied at a concrete reading with the
constant draw stream 1/2 (factor exactly 1). -/
theorem C5_witness :
    (schedQualRecords "2025-01-01T00:00:00" "HUMIDITY" (some 30) (some 70) 2
        (fun _ => 1/2) 0).length = locations.length ∧
      9/10 ≤ randFactor (fun _ => 1/2) 0 ∧ randFactor (fun _ => 1/2) 0 < 11/10 :=
  have h := C5_location_fanout "2025-01-01T00:00:00" "HUMIDITY" (some 30) (some 70) 2
    (fun _ => 1/2) 0 (fun n => by norm_num)
  ⟨h.1, (h.2.2.1 0).1, (h.2.2.1 0).2⟩

/-- C6 counterexample: a data row arriving before any parameter section is
skipped by the quality parser without touching either skip counter — the
claim says such a row is "skipped and counted", but the parse of this
one-row table returns zero emitted records and both counters zero (the
skipped-row counter stays 0 instead of becoming 1). -/
theorem C6_counterexample :
    process_water_quality_data [⟨some "01-06-2025", some "08:30:00", some "7.2"⟩] =
      ([], 0, 0) := by
  with_unfolding_all decide

/-- C6 (amended): in the quality parser, a data row with an active section
whose third cell does not parse as a finite float is excluded from the
output and increments the skipped-row counter; a data row with no active
section is skipped without incrementing any counter. -/
theorem C6_skip_accounting :
    (∀ st : QState, ∀ line s1 s2 p, st.currentParam = some p →
      ¬ containsSub line "Safe Range:" → ¬ isHeaderLine line →
      parseFloat s2 = none →
      qualStep st ⟨some line, some s1, some s2⟩ =
        { st with skippedNullValues := st.skippedNullValues + 1 }) ∧
    (∀ st : QState, ∀ line, st.currentParam = none →
      ¬ containsSub line "Safe Range:" → ¬ isHeaderLine line →
      ∀ c1 c2, qualStep st ⟨some line, c1, c2⟩ = st) := by
  constructor
  · intro st line s1 s2 p h1 h2 h3 h4
    unfold qualStep
    dsimp only
    rw [if_neg h2, if_neg h3]
    simp only [h1]
    rcases hts : tsDayFirst line s1 with _ | ts
    · rfl
    · simp only [h4]
  · intro st line h1 h2 h3 c1 c2
    unfold qualStep
    dsimp only
    rw [if_neg h2, if_neg h3]
    simp only [h1]

/-- C6 witness: a non-numeric third cell under an active HUMIDITY section
increments the skipped counter of the initial state. -/
theorem C6_witness :
    qualStep { qualInit with currentParam := some "HUMIDITY" }
        ⟨some "01-06-2025", some "08:30:00", some "bad"⟩ =
      { qualInit with currentParam := some "HUMIDITY", skippedNullValues := 1 } :=
  (C6_skip_accounting.1 { qualInit with currentParam := some "HUMIDITY" }
    "01-06-2025" "08:30:00" "bad" "HUMIDITY" rfl (by decide) (by decide)
    (by with_unfolding_all decide))

/-- C7 (amended): every flow record group returned by the historical flow
parser is keyed by a location in the fixed 5-location allow-list
(unrecognized sections are dropped by the post-processing filter).  The
incremental flow parser has no such check — see the counterexample. -/
theorem C7_preload_flow_allowlist (table : List Row) (loc : String)
    (g : List Record) (h : (loc, g) ∈ process_flow_data table) :
    loc ∈ expected_locations := by
  unfold process_flow_data at h
  obtain ⟨kv, hkv, heq⟩ := List.mem_map.1 h
  have hfil := (List.mem_filter.1 hkv).2
  rw [Prod.ext_iff] at heq
  obtain ⟨h1, _⟩ := heq
  dsimp only at h1
  subst h1
  simp only [decide_eq_true_eq] at hfil
  exact hfil.2

/-- C7 witness: the allow-list membership obtained from a concrete
Corporation Water flow table. -/
theorem C7_witness : "Corporation Water" ∈ expected_locations :=
  C7_preload_flow_allowlist
    [⟨some "Location Name: Corporation Water", none, none⟩,
     ⟨some "01-01-2025", some "00:00:00", some "100"⟩,
     ⟨some "02-01-2025", some "00:00:00", some "200"⟩]
    "Corporation Water"
    [mkFlowRec "2025-01-01T00:00:00" "Corporation Water" 100]
    (by with_unfolding_all decide)

/-- C7 counterexample: the incremental remaining-20% flow parser keeps
records from an unrecognized `Location Name: Mars Base` section — no
allow-list check exists in `process_flow_chunks`, refuting the claim for
the incremental parser. -/
theorem C7_counterexample :
    (process_flow_chunks
        (List.replicate 8 ⟨none, none, none⟩ ++
          [⟨some "Location Name: Mars Base", none, none⟩,
           ⟨some "01-01-2025", some "00:00:00", some "123.5"⟩])).lookup
        (some "Mars Base") ≠ none ∧
      "Mars Base" ∉ expected_locations := by
  with_unfolding_all decide

/-- C8 counterexample: a single-record insert whose POST is answered with
HTTP 204 — a 2xx response, hence a "succeeded" batch by the claim — is
logged as a failure and not counted: the code accepts exactly the statuses
200 and 201, so the returned count is 0 instead of 1. -/
theorem C8_counterexample :
    insert_data_batch
        [mkQualityRec "2025-01-01T00:00:00" "HUMIDITY" 50 (some 30) (some 70)]
        (fun _ => some 204) = 0 ∧
      200 ≤ 204 ∧ 204 < 300 ∧
      ([mkQualityRec "2025-01-01T00:00:00" "HUMIDITY" 50 (some 30) (some 70)] :
        List Record).length = 1 := by
  refine ⟨?_, by decide, by decide, by decide⟩
  with_unfolding_all decide

/-- C8 (amended): for a record list of length L, when every POST receives
a response (no network exception), the batch inserter issues exactly
`⌈L / 1000⌉` store calls, each batch carries at most 1000 rows, every
batch is attempted regardless of earlier failures, and the returned count
is the total number of rows in the batches answered with status 200 or
201 — any other status, 2xx included, is logged as failed and not
counted.  (A raised exception, as opposed to an error response, aborts the
loop and returns 0.) -/
theorem C8_batching (data : List Record) (status : ℕ → Option ℕ)
    (hs : ∀ i, (status i).isSome) :
    (chunksOf 1000 data).length = (data.length + 999) / 1000 ∧
      (∀ b ∈ chunksOf 1000 data, b.length ≤ 1000) ∧
      insert_data_batch data status = successTotal status 0 (chunksOf 1000 data) := by
  refine ⟨chunksOfFuel_length data.length data le_rfl, chunksOfFuel_sizes data.length data, ?_⟩
  unfold insert_data_batch
  rw [insertBatchesGo_eq status hs]
  omega

/-- C8 witness: one record, one batch, accepted with status 201 — the
returned count is 1. -/
theorem C8_witness :
    insert_data_batch
        [mkQualityRec "2025-01-01T00:00:00" "HUMIDITY" 50 (some 30) (some 70)]
        (fun _ => some 201) = 1 := by
  have h := (C8_batching
      [mkQualityRec "2025-01-01T00:00:00" "HUMIDITY" 50 (some 30) (some 70)]
      (fun _ => some 201) (fun i => rfl)).2.2
  rw [h]
  with_unfolding_all decide

/-- Shrinking the per-key record lists of a group map cannot increase the
total record count. -/
theorem sumLens_map_le (f : List Record → List Record)
    (hf : ∀ rs, (f rs).length ≤ rs.length) (g : Groups κ) :
    sumLens (g.map (fun kv => (kv.1, f kv.2))) ≤ sumLens g := by
  induction g with
  | nil => simp [sumLens]
  | cons hd tl ih =>
    simp only [sumLens, List.map_cons, List.sum_cons] at ih ⊢
    have := hf hd.2
    omega

/-- C9: both historical parser functions are total — every fallible
sub-operation is modelled by an `Option` whose failure branch performs the
skip of the corresponding Python handler, so every input table yields a
per-key mapping — and they return partial results: the emitted records
(plus, for the quality parser, both skip counters) never exceed the number
of input rows.  Malformed rows and labels are skipped, never fatal. -/
theorem C9_parsers_total (table : List Row) :
    sumLens (process_water_quality_data table).1 +
        (process_water_quality_data table).2.1 +
        (process_water_quality_data table).2.2 ≤ table.length ∧
      sumLens (process_flow_data table) ≤ table.length := by
  constructor
  · have hfold := qualFold_measure table qualInit
    rw [show table.foldl qualStep qualInit = qualRawState table from rfl] at hfold
    have h0 : sumLens qualInit.groups + qualInit.skippedInvalidParams +
        qualInit.skippedNullValues = 0 := rfl
    unfold qMeasure at hfold
    have htr := sumLens_map_le truncateGroup
      (fun rs => by simp [truncateGroup, List.length_take]) (qualRawState table).groups
    unfold process_water_quality_data
    dsimp only
    omega
  · have hfold := flowFold_measure table ⟨[], none⟩
    rw [show table.foldl flowStep ⟨[], none⟩ = flowRawState table from rfl] at hfold
    have h0 : sumLens (⟨[], none⟩ : FState).groups = 0 := rfl
    have hfil := sumLens_filter_le
      (fun kv => decide (¬ kv.2.isEmpty ∧ kv.1 ∈ expected_locations))
      (flowRawState table).groups
    have htr := sumLens_map_le (fun rs => truncateGroup (sortByTs rs))
      (fun rs => by
        have hlen : (sortByTs rs).length = rs.length :=
          (List.perm_insertionSort tsLe rs).length_eq
        simp [truncateGroup, List.length_take, hlen])
      ((flowRawState table).groups.filter
        (fun kv => decide (¬ kv.2.isEmpty ∧ kv.1 ∈ expected_locations)))
    unfold process_flow_data
    omega

/-- A per-group transformation that only selects existing records
preserves an all-records invariant. -/
theorem allRecs_map_sub {P : Record → Prop} (f : List Record → List Record)
    (hf : ∀ rs, ∀ x ∈ f rs, x ∈ rs) {g : Groups κ} (hg : AllRecs P g) :
    AllRecs P (g.map (fun kv => (kv.1, f kv.2))) := by
  intro kv hkv rec hrec
  obtain ⟨kv', hkv', heq⟩ := List.mem_map.1 hkv
  subst heq
  exact hg kv' hkv' rec (hf kv'.2 rec hrec)

/-- C10: record shapes of the three quality-record producers — the
historical parser and the realtime simulator emit records whose fields
are exactly timestamp, parameter_name, value, safe_min, safe_max (no
location_name), while the incremental remaining-20% process additionally
attaches location_name; the two ingestion paths therefore write
differently shaped records into the same water_quality table. -/
theorem C10_record_shapes :
    ("location_name" ∉
        ["timestamp", "parameter_name", "value", "safe_min", "safe_max"]) ∧
    (∀ table, AllRecs
      (fun rec => keysOf rec =
        ["timestamp", "parameter_name", "value", "safe_min", "safe_max"])
      (process_water_quality_data table).1) ∧
    (∀ now r, ∀ rec ∈ (simulate_readings now r).1,
      keysOf rec = ["timestamp", "parameter_name", "value", "safe_min", "safe_max"]) ∧
    (∀ table r g, get_remaining_data_chunks table r = some g →
      AllRecs (fun rec => keysOf rec =
        ["timestamp", "parameter_name", "location_name", "value", "safe_min", "safe_max"]) g) ∧
    ("location_name" ∈
        ["timestamp", "parameter_name", "location_name", "value", "safe_min", "safe_max"]) := by
  refine ⟨by decide, ?_, ?_, ?_, by decide⟩
  · intro table
    have hraw := qualRawState_allRecs (P := fun rec => keysOf rec =
        ["timestamp", "parameter_name", "value", "safe_min", "safe_max"])
      table (fun ts p v mn mx => rfl)
    unfold process_water_quality_data
    dsimp only
    exact allRecs_map_sub truncateGroup
      (fun rs x hx => List.Sublist.mem hx (List.take_sublist _ _)) hraw
  · intro now r rec hrec
    exact simulateGo_all (P := fun rec => keysOf rec =
        ["timestamp", "parameter_name", "value", "safe_min", "safe_max"])
      now r (fun p v => rfl) 0 locations rec hrec
  · intro table r g h
    unfold get_remaining_data_chunks at h
    obtain ⟨st', hgo, hst'⟩ := Option.map_eq_some'.1 h
    subst hst'
    exact schedQualGo_allRecs (P := fun rec => keysOf rec =
        ["timestamp", "parameter_name", "location_name", "value", "safe_min", "safe_max"])
      r (fun ts p loc v mn mx => rfl) _ _ _ hgo allRecs_nil

/-- C10 witness: the shape facts applied to concrete runs — a record
emitted by the historical parser on a two-row table, and a record emitted
by the incremental parser on its ten-row table. -/
theorem C10_witness :
    keysOf (mkQualityRec "2025-01-01T00:00:00" "HUMIDITY" 40 (some 30) (some 70)) =
        ["timestamp", "parameter_name", "value", "safe_min", "safe_max"] :=
  C10_record_shapes.2.1
    [⟨some "1. HUMIDITY Safe Range: (30 to 70)", none, none⟩,
     ⟨some "01-01-2025", some "00:00:00", some "40"⟩,
     ⟨some "02-01-2025", some "00:00:00", some "50"⟩]
    ("HUMIDITY", [mkQualityRec "2025-01-01T00:00:00" "HUMIDITY" 40 (some 30) (some 70)])
    (by with_unfolding_all decide)
    (mkQualityRec "2025-01-01T00:00:00" "HUMIDITY" 40 (some 30) (some 70))
    (by with_unfolding_all decide)
